import Mathlib

/-!
Shallow embedding of the Terraria NPC happiness calculator
(`src/app/page.tsx`, `src/app/lib/NPCClass` revision, `src/app/utils/formatting.ts`).

Prices are modelled as rationals; JS `parseFloat(x.toFixed(2))` is modelled by
`round2`.  NPC data is a list-backed map, with the JS `obj[key] || 0` lookup
modelled by `lookupOr0`.
-/

namespace TerrariaNPC

attribute [local semireducible] Rat.add Rat.mul Rat.inv Rat.sub

set_option maxRecDepth 40000

/-- `parseFloat(x.toFixed(2))`: rounding to two decimal places. -/
def round2 (q : ℚ) : ℚ :=
  ((round (q * 100) : ℤ) : ℚ) / 100

/-- JS `obj[key] || 0` on a numeric record, as a list-backed lookup. -/
def lookupOr0 (l : List (String × Int)) (k : String) : Int :=
  match l.find? (fun p => p.1 == k) with
  | some p => p.2
  | none => 0

/-- The per-NPC JSON record (`NpcData` in `NPCClass`): relationship values and
biome values.  The `hasShop` field is Modelled from the spec: the NPCClass
revision shipping `hasShop()` is not among the sources; the spec describes it
as a boolean capability flag affecting pylon eligibility only. -/
structure NpcData where
  npc : List (String × Int)
  biome : List (String × Int)
  hasShop : Bool
deriving DecidableEq

/-- The `NPC` class: an id plus its JSON record. -/
structure NPC where
  id : String
  npcData : NpcData
deriving DecidableEq

/-- `word.charAt(0).toUpperCase() + word.slice(1)` (from `NPCClass.name`). -/
def capWord (w : String) : String :=
  match w.data with
  | [] => ""
  | c :: cs => String.mk (c.toUpper :: cs)

/-- `word[0].toUpperCase() + word.slice(1).toLowerCase()` (from `toTitleCase`). -/
def capWordLower (w : String) : String :=
  match w.data with
  | [] => ""
  | c :: cs => String.mk (c.toUpper :: cs.map Char.toLower)

/-- Split a character list at any of the given separator characters, keeping
empty pieces, like the JS `String.prototype.split` with a character class. -/
def splitChars (seps : List Char) : List Char → List Char → List String
  | [], acc => [String.mk acc.reverse]
  | c :: cs, acc =>
    if c ∈ seps then String.mk acc.reverse :: splitChars seps cs []
    else splitChars seps cs (c :: acc)

/-- JS `s.split(...)` on single-character separators. -/
def jsSplit (seps : List Char) (s : String) : List String :=
  splitChars seps s.data []

/-- `toTitleCase` from `utils/formatting.ts`: split on space or underscore,
title-case each word, join with spaces. -/
def toTitleCase (s : String) : String :=
  String.intercalate " " ((jsSplit [' ', '_'] s).map capWordLower)

/-- `NPC.name` getter: snake_case id to Title Case display name. -/
def NPC.name (n : NPC) : String :=
  String.intercalate " " ((jsSplit ['_'] n.id).map capWord)

/-- `getValueForNpc`: `this.npcData.npc[npc] || 0`. -/
def NPC.getValueForNpc (n : NPC) (npc : String) : Int :=
  lookupOr0 n.npcData.npc npc

/-- `getValueForBiome`: `this.npcData.biome[biome] || 0`. -/
def NPC.getValueForBiome (n : NPC) (biome : String) : Int :=
  lookupOr0 n.npcData.biome biome

/-- Modelled from the spec: `hasShop()` reads the NPC's boolean shop-capability
flag (the NPCClass revision defining it is missing from the sources). -/
def NPC.hasShop (n : NPC) : Bool :=
  n.npcData.hasShop

/-- The `npcs: Map<string, NPC>` lookup, `npcs.get(id)`. -/
def npcsGet (npcs : List NPC) (id : String) : Option NPC :=
  npcs.find? (fun n => n.id == id)

/-- `npcs.get(neighbour)?.name || neighbour`. -/
def displayName (npcs : List NPC) (id : String) : String :=
  match npcsGet npcs id with
  | some o => if o.name = "" then id else o.name
  | none => id

/-- `NpcPriceInfo` from `page.tsx`. -/
structure NpcPriceInfo where
  npc : String
  buyPrice : ℚ
  sellPrice : ℚ
  factors : List String
deriving DecidableEq

/-- The `House` record from `page.tsx` / `DroppableHouse`.  `isPylonEligible`
is an optional field in TS, hence `Option Bool` (JS `undefined` is `none`). -/
structure House where
  id : Nat
  biome : String
  buyPrice : ℚ
  sellPrice : ℚ
  npcPrices : List NpcPriceInfo
  isPylonEligible : Option Bool
deriving DecidableEq

/-- Result record of `calculateSingleNpcPrices`. -/
structure PriceResult where
  buyPrice : ℚ
  sellPrice : ℚ
  factors : List String
deriving DecidableEq

/-- One multiplicative adjustment: buy factor, sell factor, pushed factors. -/
structure Adj where
  buy : ℚ
  sell : ℚ
  fs : List String
deriving DecidableEq

/-- Compose two adjustments (multiply prices, append factor texts). -/
def Adj.comp (a b : Adj) : Adj :=
  ⟨a.buy * b.buy, a.sell * b.sell, a.fs ++ b.fs⟩

/-- Identity adjustment. -/
def Adj.one : Adj := ⟨1, 1, []⟩

/-- The biome block of `calculateSingleNpcPrices` (the four `if`s on
`biomeScore`). -/
def biomeAdjust (biomeScore : Int) (displayBiome : String) : Adj :=
  if biomeScore = 2 then ⟨88/100, 114/100, ["Loves " ++ displayBiome ++ " biome"]⟩
  else if biomeScore = 1 then ⟨94/100, 106/100, ["Likes " ++ displayBiome ++ " biome"]⟩
  else if biomeScore = -1 then ⟨106/100, 94/100, ["Dislikes " ++ displayBiome ++ " biome"]⟩
  else if biomeScore = -2 then ⟨112/100, 89/100, ["Hates " ++ displayBiome ++ " biome"]⟩
  else Adj.one

/-- The solitude / overcrowding block: `< 3` neighbours gives the solitude
bonus, `> 3` compounds the penalty once per neighbour beyond the third. -/
def crowdAdjust (n : Nat) : Adj :=
  if n < 3 then ⟨95/100, 105/100, ["Solitude bonus: Only " ++ toString n ++ " neighbours"]⟩
  else if n > 3 then
    ⟨(105/100) ^ (n - 3), (95/100) ^ (n - 3), ["Overcrowding penalty: " ++ toString n ++ " neighbours"]⟩
  else Adj.one

/-- The princess neighbour-love block: `×0.88 / ×1.14` for each of the first
`min (length, 3)` neighbours, with one factor per loved neighbour. -/
def princessAdjust (npcs : List NPC) (npc : String) (neighbours : List String) : Adj :=
  if npc = "princess" then
    ((neighbours.take 3).map (fun nb =>
      Adj.mk (88/100) (114/100)
        ["Princess loves up to 3 neighbours (" ++ displayName npcs nb ++ ")"])).foldl Adj.comp Adj.one
  else Adj.one

/-- One iteration of the per-neighbour relationship loop. -/
def relationAdjust (npcs : List NPC) (npcObject : NPC) (neighbour : String) : Adj :=
  let s := npcObject.getValueForNpc neighbour
  if s = 2 then ⟨88/100, 114/100, ["Loves " ++ displayName npcs neighbour]⟩
  else if s = 1 then ⟨94/100, 106/100, ["Likes " ++ displayName npcs neighbour]⟩
  else if s = -1 then ⟨106/100, 94/100, ["Dislikes " ++ displayName npcs neighbour]⟩
  else if s = -2 then ⟨112/100, 89/100, ["Hates " ++ displayName npcs neighbour]⟩
  else Adj.one

/-- The whole per-neighbour relationship loop, in house order. -/
def relationsAdjust (npcs : List NPC) (npcObject : NPC) (neighbours : List String) : Adj :=
  (neighbours.map (relationAdjust npcs npcObject)).foldl Adj.comp Adj.one

/-- `house.npcPrices.map((p) => p.npc).filter((n) => n !== npc)`: the same-house
neighbours of an NPC, in house order. -/
def neighboursOf (npc : String) (house : House) : List String :=
  (house.npcPrices.map NpcPriceInfo.npc).filter (fun nb => nb ≠ npc)

/-- `calculateSingleNpcPrices(npc, house)` from `page.tsx` (final revision):
biome term, princess solitude early return, solitude / overcrowding term,
princess neighbour love, then same-house relationship terms.  The returned
prices are the raw products (the source rounds only house averages). -/
def calculateSingleNpcPrices (npcs : List NPC) (npc : String) (house : House) : PriceResult :=
  if npc = "" then ⟨1, 1, []⟩ else
  match npcsGet npcs npc with
  | none => ⟨1, 1, []⟩
  | some npcObject =>
    let displayBiome := toTitleCase house.biome
    let b := biomeAdjust (npcObject.getValueForBiome house.biome) displayBiome
    let neighbours := neighboursOf npc house
    if neighbours.length < 2 ∧ npc = "princess" then
      ⟨3/2, 1/2,
        b.fs ++ ["Princess solitude penalty: Only " ++ toString neighbours.length ++ " neighbours"]⟩
    else
      let c := crowdAdjust neighbours.length
      let p := princessAdjust npcs npc neighbours
      let r := relationsAdjust npcs npcObject neighbours
      ⟨b.buy * c.buy * p.buy * r.buy,
       b.sell * c.sell * p.sell * r.sell,
       b.fs ++ c.fs ++ p.fs ++ r.fs⟩

/-- The shop-owner filter of `checkPylonEligibility`: occupants whose NPC is
known and has a shop (`npc && npc.hasShop()`). -/
def shopNpcsOf (npcs : List NPC) (house : House) : List NpcPriceInfo :=
  house.npcPrices.filter (fun info =>
    match npcsGet npcs info.npc with
    | some npc => npc.hasShop
    | none => false)

/-- `checkPylonEligibility(house)` from `page.tsx`: at least 2 occupants, at
least one shop owner, and some shop owner with `buyPrice <= 0.9`. -/
def checkPylonEligibility (npcs : List NPC) (house : House) : Bool :=
  if house.npcPrices.length < 2 then false
  else
    let shopNpcs := shopNpcsOf npcs house
    if shopNpcs.length < 1 then false
    else
      shopNpcs.any (fun info =>
        (match npcsGet npcs info.npc with
         | some npc => npc.hasShop
         | none => false) && decide (info.buyPrice ≤ 9/10))

/-- The body of the recompute pass for one occupied house: per-NPC prices,
rounded averages, then the pylon check on the updated house. -/
def recomputeHouse (npcs : List NPC) (house : House) : House :=
  let updatedNpcPrices := house.npcPrices.map (fun npcInfo =>
    let r := calculateSingleNpcPrices npcs npcInfo.npc house
    NpcPriceInfo.mk npcInfo.npc r.buyPrice r.sellPrice r.factors)
  let totalBuyPrice := (updatedNpcPrices.map NpcPriceInfo.buyPrice).sum
  let totalSellPrice := (updatedNpcPrices.map NpcPriceInfo.sellPrice).sum
  let averageBuyPrice := round2 (totalBuyPrice / updatedNpcPrices.length)
  let averageSellPrice := round2 (totalSellPrice / updatedNpcPrices.length)
  let updatedHouse : House :=
    { house with
      buyPrice := averageBuyPrice
      sellPrice := averageSellPrice
      npcPrices := updatedNpcPrices }
  { updatedHouse with isPylonEligible := some (checkPylonEligibility npcs updatedHouse) }

/-- The recompute `useEffect` map over `placements`: houses with occupants are
recomputed, empty houses are returned as they are. -/
def recomputePass (npcs : List NPC) (placements : List House) : List House :=
  placements.map (fun house =>
    if house.npcPrices.length > 0 then recomputeHouse npcs house else house)

/-- The `hasChanges` guard after the pass: the new list is kept only when some
house's aggregate buy or sell price changed. -/
def recomputeStep (npcs : List NPC) (placements : List House) : List House :=
  let updatedPlacements := recomputePass npcs placements
  let hasChanges := (updatedPlacements.zip placements).any (fun p =>
    p.1.buyPrice ≠ p.2.buyPrice || p.1.sellPrice ≠ p.2.sellPrice)
  if hasChanges then updatedPlacements else placements

/-- The `averageHappiness` computation: sum of `sellPrice` over occupied
houses divided by their number, where JS `avg || 0` turns the `NaN` of the
no-occupied-house case into 0, and `toFixed(2)` rounds. -/
def computeAverageHappiness (placements : List House) : ℚ :=
  let total := placements.foldl
    (fun sum house => if house.npcPrices.length > 0 then sum + house.sellPrice else sum) 0
  let fullPlacements := placements.filter (fun p => p.npcPrices.length > 0)
  if fullPlacements.length = 0 then 0
  else round2 (total / fullPlacements.length)

/-- Biome usage count read back from the `biomeCounts` map: a house with a
falsy (empty) biome string is never counted. -/
def countBiome (existingHouses : List House) (b : String) : Nat :=
  (existingHouses.filter (fun h => h.biome == b && h.biome != "")).length

/-- The selection loop of `getNextUnusedBiome`: running least-used biome and
its count, updated on a strictly smaller count only. -/
def selectMin (cnt : String → Nat) (best : String) (bc : Nat) : List String → String
  | [] => best
  | b :: rest =>
    if cnt b < bc then selectMin cnt b (cnt b) rest else selectMin cnt best bc rest

/-- `getNextUnusedBiome(existingHouses)` from `page.tsx`: "Forest" when the
biome list is empty, else the first known biome with the least usage count. -/
def getNextUnusedBiome (biomes : List String) (existingHouses : List House) : String :=
  match biomes with
  | [] => "Forest"
  | b0 :: _ => selectMin (countBiome existingHouses) b0 (countBiome existingHouses b0) biomes

/-- `addHouse`: append a house with the next unused biome, the tracked next
id, default prices and no occupants; increment the id counter. -/
def addHouse (biomes : List String) (placements : List House) (nextId : Nat) :
    List House × Nat :=
  let nextBiome := getNextUnusedBiome biomes placements
  (placements ++ [House.mk nextId nextBiome 1 1 [] none], nextId + 1)

/-- `removeHouse(houseId)`: no-op when the id is absent, else filter it out. -/
def removeHouse (houseId : Nat) (prevPlacements : List House) : List House :=
  match prevPlacements.find? (fun house => house.id == houseId) with
  | none => prevPlacements
  | some _ => prevPlacements.filter (fun house => house.id != houseId)

/-- The removal map of `placeNPC`: drop the NPC from the house at the found
index, leaving every other house untouched. -/
def removeFromIndex (npc : String) (idx : Nat) (prevPlacements : List House) : List House :=
  prevPlacements.enum.map (fun p =>
    if p.1 = idx then
      { p.2 with npcPrices := p.2.npcPrices.filter (fun info => info.npc != npc) }
    else p.2)

/-- The first phase of `placeNPC`: when the NPC already occupies a house with
a different id, remove it from there first. -/
def placeRemovalStep (houseId : Nat) (npc : String) (prevPlacements : List House) : List House :=
  match prevPlacements.findIdx? (fun house => house.npcPrices.any (fun info => info.npc == npc)) with
  | some existingHouseIndex =>
    match prevPlacements.get? existingHouseIndex with
    | some h =>
      if h.id ≠ houseId then removeFromIndex npc existingHouseIndex prevPlacements
      else prevPlacements
    | none => prevPlacements
  | none => prevPlacements

/-- The second phase of `placeNPC`: append the NPC (with default prices) to
the target house when it is not already there. -/
def placeAppendStep (houseId : Nat) (npc : String) (placements : List House) : List House :=
  placements.map (fun house =>
    if house.id == houseId && !(house.npcPrices.any (fun info => info.npc == npc)) then
      { house with npcPrices := house.npcPrices ++ [NpcPriceInfo.mk npc 1 1 []] }
    else house)

/-- `placeNPC(houseId, npc)` from `page.tsx`: falsy-npc guard, missing-house
guard, removal from the previously occupied house when it is a different one,
then append to the target house when not already present. -/
def placeNPC (houseId : Nat) (npc : String) (prevPlacements : List House) : List House :=
  if npc = "" then prevPlacements else
  match prevPlacements.find? (fun house => house.id == houseId) with
  | none => prevPlacements
  | some _ => placeAppendStep houseId npc (placeRemovalStep houseId npc prevPlacements)

/-- `changeBiome(houseId, biome)`: missing-house guard, then replace. -/
def changeBiome (houseId : Nat) (biome : String) (prevPlacements : List House) : List House :=
  match prevPlacements.find? (fun house => house.id == houseId) with
  | none => prevPlacements
  | some _ =>
    prevPlacements.map (fun house =>
      if house.id = houseId then { house with biome := biome } else house)

/-- `removeNPC(houseId, npcToRemove)` with an NPC given: filter that NPC out
of the house, resetting prices to 1.0 only when the house becomes empty. -/
def removeNPCOne (houseId : Nat) (npcToRemove : String) (prevPlacements : List House) :
    List House :=
  match prevPlacements.find? (fun house => house.id == houseId) with
  | none => prevPlacements
  | some _ =>
    prevPlacements.map (fun house =>
      if house.id = houseId then
        let updatedNpcPrices := house.npcPrices.filter (fun info => info.npc != npcToRemove)
        { house with
          npcPrices := updatedNpcPrices
          buyPrice := if updatedNpcPrices.length > 0 then house.buyPrice else 1
          sellPrice := if updatedNpcPrices.length > 0 then house.sellPrice else 1 }
      else house)

/-- `removeNPC(houseId)` without an NPC: clear the house and reset prices. -/
def removeNPCAll (houseId : Nat) (prevPlacements : List House) : List House :=
  match prevPlacements.find? (fun house => house.id == houseId) with
  | none => prevPlacements
  | some _ =>
    prevPlacements.map (fun house =>
      if house.id = houseId then
        { house with npcPrices := [], buyPrice := 1, sellPrice := 1 }
      else house)

/-- The mutable application state driving the layout: the houses and the next
fresh house id. -/
structure AppState where
  placements : List House
  nextId : Nat
deriving DecidableEq

/-- One user-visible mutation or recomputation of the layout. -/
inductive Op where
  | addHouse : Op
  | removeHouse (houseId : Nat) : Op
  | placeNpc (houseId : Nat) (npc : String) : Op
  | removeNpcOne (houseId : Nat) (npc : String) : Op
  | removeNpcAll (houseId : Nat) : Op
  | changeBiome (houseId : Nat) (biome : String) : Op
  | recompute : Op
deriving DecidableEq

/-- Apply one operation to the application state. -/
def applyOp (biomes : List String) (npcs : List NPC) (op : Op) (s : AppState) : AppState :=
  match op with
  | Op.addHouse =>
    let r := addHouse biomes s.placements s.nextId
    AppState.mk r.1 r.2
  | Op.removeHouse houseId => AppState.mk (removeHouse houseId s.placements) s.nextId
  | Op.placeNpc houseId npc => AppState.mk (placeNPC houseId npc s.placements) s.nextId
  | Op.removeNpcOne houseId npc => AppState.mk (removeNPCOne houseId npc s.placements) s.nextId
  | Op.removeNpcAll houseId => AppState.mk (removeNPCAll houseId s.placements) s.nextId
  | Op.changeBiome houseId biome => AppState.mk (changeBiome houseId biome s.placements) s.nextId
  | Op.recompute => AppState.mk (recomputeStep npcs s.placements) s.nextId

/-- Run a sequence of operations from a starting state. -/
def runOps (biomes : List String) (npcs : List NPC) (ops : List Op) (s : AppState) : AppState :=
  ops.foldl (fun s op => applyOp biomes npcs op s) s

/-! ### Concrete fixtures used by counterexamples and witnesses -/

/-- The guide of the end-to-end scenario: loves the forest biome. -/
def guideNpc : NPC := ⟨"guide", ⟨[], [("forest", 2)], false⟩⟩

/-- The merchant of the end-to-end scenario: likes forest, likes the guide. -/
def merchantNpc : NPC := ⟨"merchant", ⟨[("guide", 1)], [("forest", 1)], false⟩⟩

/-- The end-to-end scenario dataset. -/
def ds8 : List NPC := [guideNpc, merchantNpc]

/-- The end-to-end scenario house: forest, guide and merchant. -/
def house8 : House := ⟨0, "forest", 1, 1, [⟨"guide", 1, 1, []⟩, ⟨"merchant", 1, 1, []⟩], none⟩

/-- An NPC that loves its neighbour `b`. -/
def npcA : NPC := ⟨"a", ⟨[("b", 2)], [], false⟩⟩

/-- A neutral NPC. -/
def npcB : NPC := ⟨"b", ⟨[], [], false⟩⟩

/-- Two-NPC dataset where `a` loves `b`. -/
def dsAB : List NPC := [npcA, npcB]

/-- House 0, occupied by `a` alone. -/
def houseWithA : House := ⟨0, "forest", 1, 1, [⟨"a", 1, 1, []⟩], none⟩

/-- House 1, occupied by `b` alone. -/
def houseWithB : House := ⟨1, "forest", 1, 1, [⟨"b", 1, 1, []⟩], none⟩

/-- House 1, empty. -/
def houseEmptyB : House := ⟨1, "forest", 1, 1, [], none⟩

/-- A princess record with a recorded biome affinity (loves forest). -/
def princessNpc : NPC := ⟨"princess", ⟨[], [("forest", 2)], false⟩⟩

/-- Neutral filler NPC. -/
def fillerX : NPC := ⟨"x1", ⟨[], [], false⟩⟩

/-- Neutral filler NPC. -/
def fillerY : NPC := ⟨"x2", ⟨[], [], false⟩⟩

/-- Dataset containing the princess with a forest affinity. -/
def dsPrincess : List NPC := [princessNpc, fillerX, fillerY]

/-- Forest house holding the princess and two neutral neighbours. -/
def housePrincess3 : House :=
  ⟨0, "forest", 1, 1, [⟨"princess", 1, 1, []⟩, ⟨"x1", 1, 1, []⟩, ⟨"x2", 1, 1, []⟩], none⟩

/-! ### C1: no external-neighbor term in the final computation -/

/-- C1 counterexample: `a` loves `b`, and `b` occupies the adjacent occupied
house, yet the recompute pass gives house 0 the same result whether house 1 is
occupied by `b` or empty, and `a`'s buy price is the bare solitude product
`0.95` with no reduced-strength `×0.94` external-relationship multiplier. -/
theorem c1_counterexample :
    (recomputePass dsAB [houseWithA, houseWithB]).head? =
      (recomputePass dsAB [houseWithA, houseEmptyB]).head? ∧
    (calculateSingleNpcPrices dsAB "a" houseWithA).buyPrice = 19/20 ∧
    ((19 : ℚ)/20) * (94/100) ≠ 19/20 := by
  refine ⟨by decide, by decide, by norm_num⟩

/-- C1 amended: the per-NPC computation of the final revision has no external
neighbour term at all — the result recorded for a house by the recompute pass
is a function of that house alone, so changing any other house (adjacent or
not) never affects it. -/
theorem c1_amended (npcs : List NPC) (L1 L2 : List House) (i : Nat)
    (h : L1.get? i = L2.get? i) :
    (recomputePass npcs L1).get? i = (recomputePass npcs L2).get? i := by
  simp only [recomputePass, List.get?_eq_getElem?, List.getElem?_map]
  rw [List.get?_eq_getElem?, List.get?_eq_getElem?] at h
  rw [h]

/-- C1 amended witness at a concrete layout pair. -/
theorem c1_amended_witness :
    (recomputePass dsAB [houseWithA, houseWithB]).get? 0 =
      (recomputePass dsAB [houseWithA, houseEmptyB]).get? 0 :=
  c1_amended dsAB [houseWithA, houseWithB] [houseWithA, houseEmptyB] 0 (by decide)

/-! ### C2: the princess biome term is not bypassed -/

/-- C2 counterexample: with a dataset recording a forest affinity of 2 for the
princess, placing her in a forest house (with two neighbours, so no solitude
reset) both appends the biome factor string and multiplies her buy price by
the ordinary `×0.88` biome multiplier — her result is not the bypassed value. -/
theorem c2_counterexample :
    (calculateSingleNpcPrices dsPrincess "princess" housePrincess3).factors.head? =
      some "Loves Forest biome" ∧
    (calculateSingleNpcPrices dsPrincess "princess" housePrincess3).buyPrice = 50578/78125 ∧
    ((50578 : ℚ)/78125) ≠ (95/100) * ((88/100) * (88/100)) := by
  refine ⟨by decide, by decide, by norm_num⟩

/-- C2 amended: the final computation applies the biome term to the princess
exactly as to any other NPC — her biome-affinity lookup feeds the standard
biome adjustment, whose factor text survives even the solitude reset and whose
multiplier enters her price whenever she has at least 2 neighbours. -/
theorem c2_amended (npcs : List NPC) (house : House) (p : NPC)
    (h : npcsGet npcs "princess" = some p) :
    ((neighboursOf "princess" house).length < 2 →
      (calculateSingleNpcPrices npcs "princess" house).factors =
        (biomeAdjust (p.getValueForBiome house.biome) (toTitleCase house.biome)).fs ++
          ["Princess solitude penalty: Only " ++
            toString (neighboursOf "princess" house).length ++ " neighbours"]) ∧
    (¬ (neighboursOf "princess" house).length < 2 →
      (calculateSingleNpcPrices npcs "princess" house).buyPrice =
        (biomeAdjust (p.getValueForBiome house.biome) (toTitleCase house.biome)).buy *
          (crowdAdjust (neighboursOf "princess" house).length).buy *
          (princessAdjust npcs "princess" (neighboursOf "princess" house)).buy *
          (relationsAdjust npcs p (neighboursOf "princess" house)).buy ∧
      (calculateSingleNpcPrices npcs "princess" house).factors =
        (biomeAdjust (p.getValueForBiome house.biome) (toTitleCase house.biome)).fs ++
          (crowdAdjust (neighboursOf "princess" house).length).fs ++
          (princessAdjust npcs "princess" (neighboursOf "princess" house)).fs ++
          (relationsAdjust npcs p (neighboursOf "princess" house)).fs) := by
  constructor
  · intro hlt
    simp [calculateSingleNpcPrices, h, hlt]
  · intro hge
    simp [calculateSingleNpcPrices, h, hge]

/-- C2 amended witness at the concrete princess fixture. -/
theorem c2_amended_witness :
    ¬ (neighboursOf "princess" housePrincess3).length < 2 ∧
    (calculateSingleNpcPrices dsPrincess "princess" housePrincess3).buyPrice =
      (biomeAdjust (princessNpc.getValueForBiome housePrincess3.biome)
          (toTitleCase housePrincess3.biome)).buy *
        (crowdAdjust (neighboursOf "princess" housePrincess3).length).buy *
        (princessAdjust dsPrincess "princess" (neighboursOf "princess" housePrincess3)).buy *
        (relationsAdjust dsPrincess princessNpc (neighboursOf "princess" housePrincess3)).buy :=
  ⟨by decide, ((c2_amended dsPrincess housePrincess3 princessNpc rfl).2 (by decide)).1⟩

/-! ### C3: per-NPC prices are returned unrounded -/

/-- C3 counterexample: in the end-to-end scenario the per-NPC computation
returns the unrounded products `0.836` / `1.197` for the guide, not the
2-decimal roundings `0.84` / `1.20` the claim demands. -/
theorem c3_counterexample :
    (calculateSingleNpcPrices ds8 "guide" house8).buyPrice = 209/250 ∧
    ((209 : ℚ)/250) ≠ 21/25 ∧
    (calculateSingleNpcPrices ds8 "guide" house8).sellPrice = 1197/1000 ∧
    ((1197 : ℚ)/1000) ≠ 6/5 := by
  refine ⟨by decide, by norm_num, by decide, by norm_num⟩

/-- C3 amended: per-NPC prices are stored unrounded; rounding to 2 decimal
places happens only for the house-level averages, which in the end-to-end
scenario gives the house `0.84` buy and `1.19` sell while the guide's own
entries stay `0.836` / `1.197`. -/
theorem c3_amended :
    (∀ (npcs : List NPC) (house : House),
      (recomputeHouse npcs house).npcPrices = house.npcPrices.map (fun npcInfo =>
        NpcPriceInfo.mk npcInfo.npc
          (calculateSingleNpcPrices npcs npcInfo.npc house).buyPrice
          (calculateSingleNpcPrices npcs npcInfo.npc house).sellPrice
          (calculateSingleNpcPrices npcs npcInfo.npc house).factors) ∧
      (recomputeHouse npcs house).buyPrice =
        round2 ((((recomputeHouse npcs house).npcPrices.map NpcPriceInfo.buyPrice).sum) /
          ((recomputeHouse npcs house).npcPrices.length)) ∧
      (recomputeHouse npcs house).sellPrice =
        round2 ((((recomputeHouse npcs house).npcPrices.map NpcPriceInfo.sellPrice).sum) /
          ((recomputeHouse npcs house).npcPrices.length))) ∧
    (recomputeHouse ds8 house8).buyPrice = 21/25 ∧
    (recomputeHouse ds8 house8).sellPrice = 119/100 := by
  refine ⟨fun npcs house => ⟨rfl, rfl, rfl⟩, by decide, by decide⟩

/-! ### C8: the global aggregate -/

/-- The `reduce` accumulating occupied houses' sell prices equals the sum over
the filtered list. -/
theorem foldl_sell_eq (l : List House) (init : ℚ) :
    l.foldl (fun sum house =>
        if house.npcPrices.length > 0 then sum + house.sellPrice else sum) init =
      init + ((l.filter (fun p => p.npcPrices.length > 0)).map House.sellPrice).sum := by
  induction l generalizing init with
  | nil => simp
  | cons a t ih =>
    by_cases hc : a.npcPrices.length > 0
    · simp [List.foldl_cons, hc, ih, List.filter_cons]
      ring
    · simp [List.foldl_cons, hc, ih, List.filter_cons]

/-- C8: the global aggregate is the 2-decimal rounding of the sum of occupied
houses' sell prices over their number, and exactly 0 when no house is
occupied (the division by zero is special-cased away). -/
theorem c8 (placements : List House) :
    (placements.filter (fun p => p.npcPrices.length > 0) = [] →
      computeAverageHappiness placements = 0) ∧
    (placements.filter (fun p => p.npcPrices.length > 0) ≠ [] →
      computeAverageHappiness placements =
        round2 ((((placements.filter (fun p => p.npcPrices.length > 0)).map House.sellPrice).sum) /
          ((placements.filter (fun p => p.npcPrices.length > 0)).length))) := by
  constructor
  · intro h
    simp [computeAverageHappiness, h]
  · intro h
    have hlen : (placements.filter (fun p => p.npcPrices.length > 0)).length ≠ 0 := by
      simpa [List.length_eq_zero] using h
    simp [computeAverageHappiness, foldl_sell_eq, hlen]

/-- C8 witness: the aggregate of a one-occupied-house layout, and the
no-occupied-house special case, via the theorem. -/
theorem c8_witness :
    computeAverageHappiness [house8] =
      round2 (((([house8].filter (fun p => p.npcPrices.length > 0)).map House.sellPrice).sum) /
        ((([house8].filter (fun p => p.npcPrices.length > 0)).length))) ∧
    computeAverageHappiness [houseEmptyB] = 0 :=
  ⟨(c8 [house8]).2 (by decide), (c8 [houseEmptyB]).1 (by decide)⟩

/-! ### C10: the recompute pass never touches empty houses -/

/-- C10: a recomputation pass returns every zero-occupant house as the very
record it received — all fields untouched — so the engine only writes to
occupied houses and stale fields on empty houses survive the pass. -/
theorem c10 (npcs : List NPC) (placements : List House) (i : Nat) (h : House)
    (hget : placements.get? i = some h) (he : h.npcPrices = []) :
    (recomputePass npcs placements).get? i = some h := by
  rw [List.get?_eq_getElem?] at hget ⊢
  simp [recomputePass, hget, he]

/-- C10 witness: the empty house of a concrete layout passes through. -/
theorem c10_witness :
    (recomputePass dsAB [houseWithA, houseEmptyB]).get? 1 = some houseEmptyB :=
  c10 dsAB [houseWithA, houseEmptyB] 1 houseEmptyB (by decide) (by decide)

/-! ### C5: pylon eligibility -/

/-- A shop-owning NPC. -/
def shopOwner : NPC := ⟨"s", ⟨[], [], true⟩⟩

/-- A shopless companion NPC. -/
def companion : NPC := ⟨"c", ⟨[], [], false⟩⟩

/-- Dataset for the pylon boundary checks. -/
def dsBoundary : List NPC := [shopOwner, companion]

/-- Two occupants, the only shop owner exactly at `buyPrice = 0.90`. -/
def houseB90 : House := ⟨0, "forest", 1, 1, [⟨"s", 9/10, 1, []⟩, ⟨"c", 1, 1, []⟩], none⟩

/-- Two occupants, the only shop owner at `buyPrice = 0.91`. -/
def houseB91 : House := ⟨0, "forest", 1, 1, [⟨"s", 91/100, 1, []⟩, ⟨"c", 1, 1, []⟩], none⟩

/-- A single-occupant house. -/
def houseSingle : House := ⟨0, "forest", 1, 1, [⟨"s", 9/10, 1, []⟩], none⟩

/-- C5: pylon eligibility is false below 2 occupants, false without a
shop-owning occupant, and otherwise holds exactly when some shop owner has
`buyPrice ≤ 0.9`; the boundary is inclusive, witnessed at `0.90` vs `0.91`. -/
theorem c5 (npcs : List NPC) (house : House) :
    (house.npcPrices.length < 2 → checkPylonEligibility npcs house = false) ∧
    (shopNpcsOf npcs house = [] → checkPylonEligibility npcs house = false) ∧
    (2 ≤ house.npcPrices.length → shopNpcsOf npcs house ≠ [] →
      (checkPylonEligibility npcs house = true ↔
        ∃ info ∈ shopNpcsOf npcs house, info.buyPrice ≤ 9/10)) ∧
    checkPylonEligibility dsBoundary houseB90 = true ∧
    checkPylonEligibility dsBoundary houseB91 = false := by
  refine ⟨?_, ?_, ?_, by decide, by decide⟩
  · intro h
    simp [checkPylonEligibility, h]
  · intro h
    simp [checkPylonEligibility, h]
  · intro hlen hne
    have h2 : ¬ house.npcPrices.length < 2 := by omega
    have hlt : ¬ (shopNpcsOf npcs house).length < 1 := by
      have := List.length_pos.mpr hne
      omega
    simp only [checkPylonEligibility, if_neg h2, if_neg hlt, List.any_eq_true,
      Bool.and_eq_true, decide_eq_true_eq]
    constructor
    · rintro ⟨info, hmem, -, hle⟩
      exact ⟨info, hmem, hle⟩
    · rintro ⟨info, hmem, hle⟩
      refine ⟨info, hmem, ?_, hle⟩
      have := (List.mem_filter.mp hmem).2
      exact this

/-- C5 witness: the theorem applied at the concrete boundary fixtures. -/
theorem c5_witness :
    checkPylonEligibility dsBoundary houseSingle = false ∧
    checkPylonEligibility dsBoundary houseB90 = true :=
  ⟨(c5 dsBoundary houseSingle).1 (by decide),
    ((c5 dsBoundary houseB90).2.2.1 (by decide) (by decide)).mpr
      ⟨⟨"s", 9/10, 1, []⟩, by decide, by norm_num⟩⟩

/-! ### C7: least-used biome allocation -/

/-- Five empty fixture houses with biome usage counts a:2, b:2, c:1. -/
def fiveHouses : List House :=
  [⟨0, "a", 1, 1, [], none⟩, ⟨1, "a", 1, 1, [], none⟩, ⟨2, "b", 1, 1, [], none⟩,
   ⟨3, "b", 1, 1, [], none⟩, ⟨4, "c", 1, 1, [], none⟩]

/-- Specification of the selection loop: the result is drawn from the running
best or the list, has minimal count there, and — unless it stayed the initial
best — is the first list element attaining its count. -/
theorem selectMin_spec (cnt : String → Nat) (l : List String) : ∀ (best : String),
    (selectMin cnt best (cnt best) l = best ∨ selectMin cnt best (cnt best) l ∈ l) ∧
    cnt (selectMin cnt best (cnt best) l) ≤ cnt best ∧
    (∀ b ∈ l, cnt (selectMin cnt best (cnt best) l) ≤ cnt b) ∧
    (selectMin cnt best (cnt best) l = best ∨
      (cnt (selectMin cnt best (cnt best) l) < cnt best ∧
        l.find? (fun b => decide (cnt b ≤ cnt (selectMin cnt best (cnt best) l))) =
          some (selectMin cnt best (cnt best) l))) := by
  induction l with
  | nil =>
    intro best
    simp [selectMin]
  | cons b t ih =>
    intro best
    by_cases hc : cnt b < cnt best
    · obtain ⟨hmem, hle, hmin, hfirst⟩ := ih b
      simp only [selectMin, if_pos hc]
      refine ⟨?_, ?_, ?_, ?_⟩
      · right
        rcases hmem with h | h
        · rw [h]
          exact List.mem_cons_self b t
        · exact List.mem_cons_of_mem b h
      · exact le_trans hle (le_of_lt hc)
      · intro x hx
        rcases List.mem_cons.mp hx with h | h
        · exact h ▸ hle
        · exact hmin x h
      · right
        refine ⟨lt_of_le_of_lt hle hc, ?_⟩
        rcases hfirst with h | ⟨hlt, hfind⟩
        · rw [List.find?_cons_of_pos _ (by simp [h])]
          rw [h]
        · rw [List.find?_cons_of_neg _ (by simp; omega)]
          exact hfind
    · obtain ⟨hmem, hle, hmin, hfirst⟩ := ih best
      simp only [selectMin, if_neg hc]
      refine ⟨?_, hle, ?_, ?_⟩
      · rcases hmem with h | h
        · exact Or.inl h
        · exact Or.inr (List.mem_cons_of_mem b h)
      · intro x hx
        rcases List.mem_cons.mp hx with h | h
        · subst h
          omega
        · exact hmin x h
      · rcases hfirst with h | ⟨hlt, hfind⟩
        · exact Or.inl h
        · refine Or.inr ⟨hlt, ?_⟩
          rw [List.find?_cons_of_neg _ (by simp; omega)]
          exact hfind

/-- C7: with a nonempty biome list, `getNextUnusedBiome` returns a known
biome of minimal usage count, the first one attaining the minimum; with an
empty list it returns "Forest"; at counts a:2, b:2, c:1 it returns "c". -/
theorem c7 (biomes : List String) (existingHouses : List House) :
    (biomes = [] → getNextUnusedBiome biomes existingHouses = "Forest") ∧
    (biomes ≠ [] →
      getNextUnusedBiome biomes existingHouses ∈ biomes ∧
      (∀ b ∈ biomes,
        countBiome existingHouses (getNextUnusedBiome biomes existingHouses) ≤
          countBiome existingHouses b) ∧
      biomes.find? (fun b => decide (countBiome existingHouses b ≤
          countBiome existingHouses (getNextUnusedBiome biomes existingHouses))) =
        some (getNextUnusedBiome biomes existingHouses)) ∧
    getNextUnusedBiome ["a", "b", "c"] fiveHouses = "c" := by
  refine ⟨?_, ?_, by decide⟩
  · intro h
    subst h
    rfl
  · intro h
    match biomes with
    | [] => exact absurd rfl h
    | b0 :: rest =>
      obtain ⟨hmem, hle, hmin, hfirst⟩ :=
        selectMin_spec (countBiome existingHouses) (b0 :: rest) b0
      have hres : getNextUnusedBiome (b0 :: rest) existingHouses =
          selectMin (countBiome existingHouses) b0 (countBiome existingHouses b0)
            (b0 :: rest) := rfl
      rw [hres]
      refine ⟨?_, hmin, ?_⟩
      · rcases hmem with heq | hmemb
        · rw [heq]
          exact List.mem_cons_self b0 rest
        · exact hmemb
      · rcases hfirst with heq | ⟨hlt, hfind⟩
        · rw [List.find?_cons_of_pos _ (by simp [heq])]
          rw [heq]
        · exact hfind

/-- C7 witness: at the concrete a:2, b:2, c:1 fixture, the result is a known
biome whose count does not exceed biome "a"'s. -/
theorem c7_witness :
    getNextUnusedBiome ["a", "b", "c"] fiveHouses ∈ ["a", "b", "c"] ∧
    countBiome fiveHouses (getNextUnusedBiome ["a", "b", "c"] fiveHouses) ≤
      countBiome fiveHouses "a" :=
  ⟨((c7 ["a", "b", "c"] fiveHouses).2.1 (by decide)).1,
    ((c7 ["a", "b", "c"] fiveHouses).2.1 (by decide)).2.1 "a" (by decide)⟩

/-! ### C4: solitude / overcrowding case analysis -/

/-- The biome adjustment an NPC record earns in a house. -/
def biomePhaseOf (obj : NPC) (house : House) : Adj :=
  biomeAdjust (obj.getValueForBiome house.biome) (toTitleCase house.biome)

/-- C4: the princess with fewer than 2 neighbours is reset to 1.5 / 0.5 with
the solitude-penalty factor and no further terms; a non-princess NPC with
fewer than 3 neighbours gets exactly one `×0.95 / ×1.05` solitude bonus; an
NPC with exactly 3 neighbours gets no solitude or crowding term; an NPC with
`n > 3` neighbours gets the `×1.05 / ×0.95` multiplier `n − 3` times and one
aggregate overcrowding factor. -/
theorem c4 (npcs : List NPC) (npc : String) (house : House) (obj : NPC)
    (hne : npc ≠ "") (h : npcsGet npcs npc = some obj) :
    (npc = "princess" → (neighboursOf npc house).length < 2 →
      calculateSingleNpcPrices npcs npc house =
        ⟨3/2, 1/2, (biomePhaseOf obj house).fs ++
          ["Princess solitude penalty: Only " ++
            toString (neighboursOf npc house).length ++ " neighbours"]⟩) ∧
    (npc ≠ "princess" → (neighboursOf npc house).length < 3 →
      calculateSingleNpcPrices npcs npc house =
        ⟨(biomePhaseOf obj house).buy * (95/100) *
            (relationsAdjust npcs obj (neighboursOf npc house)).buy,
         (biomePhaseOf obj house).sell * (105/100) *
            (relationsAdjust npcs obj (neighboursOf npc house)).sell,
         (biomePhaseOf obj house).fs ++
           ["Solitude bonus: Only " ++ toString (neighboursOf npc house).length ++ " neighbours"] ++
           (relationsAdjust npcs obj (neighboursOf npc house)).fs⟩) ∧
    ((neighboursOf npc house).length = 3 →
      calculateSingleNpcPrices npcs npc house =
        ⟨(biomePhaseOf obj house).buy * (princessAdjust npcs npc (neighboursOf npc house)).buy *
            (relationsAdjust npcs obj (neighboursOf npc house)).buy,
         (biomePhaseOf obj house).sell * (princessAdjust npcs npc (neighboursOf npc house)).sell *
            (relationsAdjust npcs obj (neighboursOf npc house)).sell,
         (biomePhaseOf obj house).fs ++ (princessAdjust npcs npc (neighboursOf npc house)).fs ++
           (relationsAdjust npcs obj (neighboursOf npc house)).fs⟩) ∧
    ((neighboursOf npc house).length > 3 →
      calculateSingleNpcPrices npcs npc house =
        ⟨(biomePhaseOf obj house).buy * (105/100) ^ ((neighboursOf npc house).length - 3) *
            (princessAdjust npcs npc (neighboursOf npc house)).buy *
            (relationsAdjust npcs obj (neighboursOf npc house)).buy,
         (biomePhaseOf obj house).sell * (95/100) ^ ((neighboursOf npc house).length - 3) *
            (princessAdjust npcs npc (neighboursOf npc house)).sell *
            (relationsAdjust npcs obj (neighboursOf npc house)).sell,
         (biomePhaseOf obj house).fs ++
           ["Overcrowding penalty: " ++ toString (neighboursOf npc house).length ++ " neighbours"] ++
           (princessAdjust npcs npc (neighboursOf npc house)).fs ++
           (relationsAdjust npcs obj (neighboursOf npc house)).fs⟩) := by
  refine ⟨?_, ?_, ?_, ?_⟩
  · intro hp hlt
    subst hp
    simp [calculateSingleNpcPrices, h, hlt, biomePhaseOf]
  · intro hnp hlt3
    have hcond : ¬ ((neighboursOf npc house).length < 2 ∧ npc = "princess") :=
      fun hx => hnp hx.2
    simp [calculateSingleNpcPrices, hne, h, hcond, biomePhaseOf, crowdAdjust, hlt3,
      princessAdjust, hnp, Adj.one, mul_assoc]
  · intro h3
    have hcond : ¬ ((neighboursOf npc house).length < 2 ∧ npc = "princess") :=
      fun hx => by omega
    simp [calculateSingleNpcPrices, hne, h, hcond, biomePhaseOf, crowdAdjust, h3,
      Adj.one, mul_assoc]
  · intro hgt
    have hcond : ¬ ((neighboursOf npc house).length < 2 ∧ npc = "princess") :=
      fun hx => by omega
    have hn3 : ¬ (neighboursOf npc house).length < 3 := by omega
    simp [calculateSingleNpcPrices, hne, h, hcond, biomePhaseOf, crowdAdjust, hn3, hgt,
      Adj.one, mul_assoc]

/-- C4 witness: the guide with one neighbour gets exactly the solitude bonus
layered between its biome and relationship phases. -/
theorem c4_witness :
    calculateSingleNpcPrices ds8 "guide" house8 =
      ⟨(biomePhaseOf guideNpc house8).buy * (95/100) *
          (relationsAdjust ds8 guideNpc (neighboursOf "guide" house8)).buy,
       (biomePhaseOf guideNpc house8).sell * (105/100) *
          (relationsAdjust ds8 guideNpc (neighboursOf "guide" house8)).sell,
       (biomePhaseOf guideNpc house8).fs ++
         ["Solitude bonus: Only " ++ toString (neighboursOf "guide" house8).length ++ " neighbours"] ++
         (relationsAdjust ds8 guideNpc (neighboursOf "guide" house8)).fs⟩ :=
  (c4 ds8 "guide" house8 guideNpc (by decide) (by decide)).2.1 (by decide) (by decide)

/-! ### C6: the empty-house invariant fails -/

/-- A forest-loving shop owner. -/
def npcShopA : NPC := ⟨"a", ⟨[], [("forest", 2)], true⟩⟩

/-- A fully neutral NPC. -/
def npcPlainB : NPC := ⟨"b", ⟨[], [], false⟩⟩

/-- Dataset for the stale-empty-house trace. -/
def dsStale : List NPC := [npcShopA, npcPlainB]

/-- Build two houses, fill house 0, recompute (house 0 becomes pylon eligible
with discounted prices), then move both occupants to house 1. -/
def opsStale : List Op :=
  [Op.addHouse, Op.addHouse, Op.placeNpc 0 "a", Op.placeNpc 0 "b", Op.recompute,
   Op.placeNpc 1 "a", Op.placeNpc 1 "b"]

/-- C6 counterexample: after the trace, house 0 has zero occupants yet keeps
`buyPrice = 0.89`, `sellPrice = 1.12` and `isPylonEligible = true` — the
empty-house invariant does not hold in this reachable state. -/
theorem c6_counterexample :
    (runOps ["forest"] dsStale opsStale ⟨[], 0⟩).placements.head? =
      some ⟨0, "forest", 89/100, 28/25, [], some true⟩ ∧
    ((89 : ℚ)/100) ≠ 1 ∧ ((28 : ℚ)/25) ≠ 1 ∧ (some true : Option Bool) ≠ some false := by
  refine ⟨by decide, by norm_num, by norm_num, by decide⟩

/-- Pointwise view of the removal map of `placeNPC`. -/
theorem removeFromIndex_getElem (npc : String) (idx : Nat) (l : List House) (n : Nat) :
    (removeFromIndex npc idx l)[n]? = Option.map (fun h =>
      if n = idx then
        { h with npcPrices := h.npcPrices.filter (fun info => info.npc != npc) }
      else h) l[n]? := by
  simp only [removeFromIndex, List.getElem?_map, List.getElem?_enum]
  cases l[n]? <;> simp

/-- The removal phase either leaves the layout alone or applies the removal
map at the found index of a house with a different id. -/
theorem placeRemovalStep_cases (houseId : Nat) (npc : String) (prev : List House) :
    placeRemovalStep houseId npc prev = prev ∨
    ∃ idx h,
      prev.findIdx? (fun house => house.npcPrices.any (fun info => info.npc == npc)) = some idx ∧
      prev[idx]? = some h ∧ h.id ≠ houseId ∧
      placeRemovalStep houseId npc prev = removeFromIndex npc idx prev := by
  cases hidx : prev.findIdx? (fun house => house.npcPrices.any (fun info => info.npc == npc)) with
  | none =>
    left
    simp [placeRemovalStep, hidx]
  | some idx =>
    cases hget : prev[idx]? with
    | none =>
      left
      simp [placeRemovalStep, hidx, List.get?_eq_getElem?, hget]
    | some h =>
      by_cases hid : h.id = houseId
      · left
        simp [placeRemovalStep, hidx, List.get?_eq_getElem?, hget, hid]
      · right
        refine ⟨idx, h, rfl, hget, hid, ?_⟩
        simp [placeRemovalStep, hidx, List.get?_eq_getElem?, hget, hid]

/-- Mapping a projection untouched by a pointwise-preserving map. -/
theorem map_proj_of_pointwise {α β : Type _} (f : α → α) (proj : α → β)
    (hp : ∀ a, proj (f a) = proj a) (l : List α) :
    (l.map f).map proj = l.map proj := by
  rw [List.map_map]
  exact List.map_congr_left (fun a _ => hp a)

/-- The removal map keeps every projection that ignores `npcPrices`. -/
theorem removeFromIndex_map_proj {β : Type _} (npc : String) (idx : Nat)
    (proj : House → β)
    (hp : ∀ h, proj { h with
      npcPrices := h.npcPrices.filter (fun info => info.npc != npc) } = proj h)
    (l : List House) :
    (removeFromIndex npc idx l).map proj = l.map proj := by
  apply List.ext_getElem?
  intro n
  simp only [List.getElem?_map, removeFromIndex_getElem]
  cases l[n]? with
  | none => rfl
  | some h =>
    by_cases hn : n = idx <;> simp [hn, hp]

/-- `placeNPC` never changes any house's prices or pylon flag. -/
theorem placeNPC_prices_flags (houseId : Nat) (npc : String) (prev : List House) :
    (placeNPC houseId npc prev).map (fun h => (h.buyPrice, h.sellPrice, h.isPylonEligible)) =
      prev.map (fun h => (h.buyPrice, h.sellPrice, h.isPylonEligible)) := by
  unfold placeNPC
  by_cases hne : npc = ""
  · rw [if_pos hne]
  · rw [if_neg hne]
    cases hfind : prev.find? (fun house => house.id == houseId) with
    | none => rfl
    | some tgt =>
      have happ : ∀ (l : List House),
          (placeAppendStep houseId npc l).map
              (fun h => (h.buyPrice, h.sellPrice, h.isPylonEligible)) =
            l.map (fun h => (h.buyPrice, h.sellPrice, h.isPylonEligible)) := by
        intro l
        apply map_proj_of_pointwise
        intro a
        by_cases hc : (a.id == houseId && !(a.npcPrices.any (fun info => info.npc == npc))) = true <;>
          simp [placeAppendStep, hc]
      show (placeAppendStep houseId npc (placeRemovalStep houseId npc prev)).map _ = _
      rw [happ]
      rcases placeRemovalStep_cases houseId npc prev with h | ⟨idx, h0, -, -, -, heq⟩
      · rw [h]
      · rw [heq]
        exact removeFromIndex_map_proj npc idx
          (fun h => (h.buyPrice, h.sellPrice, h.isPylonEligible)) (fun h => rfl) prev

/-- C6 amended: the empty-house invariant is not maintained across all
operations.  What holds instead: `addHouse` appends a fully-default house;
`removeNpc` resets an emptied house's prices to 1.0 but never touches its
pylon flag; `placeNpc` never changes any house's prices or pylon flag (so a
house it vacates keeps stale values); and a recomputation pass returns every
empty house unchanged. -/
theorem c6_amended :
    (∀ (biomes : List String) (placements : List House) (nextId : Nat),
      ((addHouse biomes placements nextId).1).getLast? =
        some ⟨nextId, getNextUnusedBiome biomes placements, 1, 1, [], none⟩) ∧
    (∀ (houseId : Nat) (npc : String) (prev : List House),
      ∀ h ∈ removeNPCOne houseId npc prev, h.npcPrices = [] →
        (h.buyPrice = 1 ∧ h.sellPrice = 1) ∨ h ∈ prev) ∧
    (∀ (houseId : Nat) (npc : String) (prev : List House),
      (removeNPCOne houseId npc prev).map House.isPylonEligible =
        prev.map House.isPylonEligible) ∧
    (∀ (houseId : Nat) (npc : String) (prev : List House),
      (placeNPC houseId npc prev).map (fun h => (h.buyPrice, h.sellPrice, h.isPylonEligible)) =
        prev.map (fun h => (h.buyPrice, h.sellPrice, h.isPylonEligible))) ∧
    (∀ (npcs : List NPC) (placements : List House) (i : Nat) (h : House),
      placements[i]? = some h → h.npcPrices = [] →
        (recomputePass npcs placements)[i]? = some h) := by
  refine ⟨?_, ?_, ?_, placeNPC_prices_flags, ?_⟩
  · intro biomes placements nextId
    simp [addHouse]
  · intro houseId npc prev h hmem he
    cases hfind : prev.find? (fun house => house.id == houseId) with
    | none =>
      right
      simpa [removeNPCOne, hfind] using hmem
    | some tgt =>
      simp only [removeNPCOne, hfind, List.mem_map] at hmem
      obtain ⟨h0, h0mem, heq⟩ := hmem
      by_cases hid : h0.id = houseId
      · rw [if_pos hid] at heq
        left
        rw [← heq] at he ⊢
        simp only at he
        simp [he]
      · rw [if_neg hid] at heq
        right
        rw [← heq]
        exact h0mem
  · intro houseId npc prev
    cases hfind : prev.find? (fun house => house.id == houseId) with
    | none => simp [removeNPCOne, hfind]
    | some tgt =>
      simp only [removeNPCOne, hfind]
      apply map_proj_of_pointwise
      intro a
      by_cases hid : a.id = houseId <;> simp [hid]
  · intro npcs placements i h hget he
    simp [recomputePass, hget, he]

/-- A house left with stale derived fields. -/
def staleHouse : House := ⟨0, "forest", 89/100, 28/25, [⟨"a", 1, 1, []⟩], some true⟩

/-- C6 amended witness: removing the last occupant of the stale house resets
its prices (the pylon flag staying is visible in the counterexample). -/
theorem c6_amended_witness :
    ((House.mk 0 "forest" 1 1 [] (some true)).buyPrice = 1 ∧
      (House.mk 0 "forest" 1 1 [] (some true)).sellPrice = 1) ∨
    House.mk 0 "forest" 1 1 [] (some true) ∈ [staleHouse] :=
  c6_amended.2.1 0 "a" [staleHouse] (House.mk 0 "forest" 1 1 [] (some true))
    (by decide) (by decide)

/-! ### C9: occupant uniqueness across `placeNPC` -/

/-- Number of houses of a layout containing a given NPC. -/
def countHousesWith (l : List House) (n : String) : Nat :=
  (l.filter (fun h => h.npcPrices.any (fun info => info.npc == n))).length

/-- `countHousesWith` through `countP` on the boolean occupancy image. -/
theorem countHousesWith_eq (l : List House) (n : String) :
    countHousesWith l n =
      (l.map (fun h => h.npcPrices.any (fun info => info.npc == n))).countP (fun b => b) := by
  rw [List.countP_map, countHousesWith, ← List.countP_eq_length_filter]
  rfl

/-- A predicate holding at most once holds at a unique position. -/
theorem countP_le_one_unique {α : Type _} (p : α → Bool) :
    ∀ (l : List α), l.countP p ≤ 1 →
      ∀ (i j : Nat) (a b : α), l[i]? = some a → l[j]? = some b →
        p a = true → p b = true → i = j := by
  intro l
  induction l with
  | nil =>
    intro _ i j a b ha _ _ _
    simp at ha
  | cons x t ih =>
    intro hle i j a b ha hb hpa hpb
    have htail : t.countP p ≤ 1 := by
      rw [List.countP_cons] at hle
      omega
    match i, j with
    | 0, 0 => rfl
    | 0, j + 1 =>
      exfalso
      simp only [List.getElem?_cons_zero] at ha
      injection ha with ha
      subst ha
      have hzero : t.countP p = 0 := by
        rw [List.countP_cons, hpa, if_pos rfl] at hle
        omega
      have hbx : b ∈ t := List.mem_iff_getElem?.mpr ⟨j, by simpa using hb⟩
      exact (List.countP_eq_zero.mp hzero b hbx) hpb
    | i + 1, 0 =>
      exfalso
      simp only [List.getElem?_cons_zero] at hb
      injection hb with hb
      subst hb
      have hzero : t.countP p = 0 := by
        rw [List.countP_cons, hpb, if_pos rfl] at hle
        omega
      have hax : a ∈ t := List.mem_iff_getElem?.mpr ⟨i, by simpa using ha⟩
      exact (List.countP_eq_zero.mp hzero a hax) hpa
    | i + 1, j + 1 =>
      have := ih htail i j a b (by simpa using ha) (by simpa using hb) hpa hpb
      omega

/-- Pointwise boolean implication bounds the count of `true`s. -/
theorem countP_id_le_of_pointwise :
    ∀ (l1 l2 : List Bool), l1.length = l2.length →
      (∀ i : Nat, l1[i]? = some true → l2[i]? = some true) →
      l1.countP (fun b => b) ≤ l2.countP (fun b => b) := by
  intro l1
  induction l1 with
  | nil =>
    intro l2 _ _
    simp
  | cons x t ih =>
    intro l2 hlen hpt
    match l2 with
    | [] => simp at hlen
    | y :: t2 =>
      have htail : t.countP (fun b => b) ≤ t2.countP (fun b => b) := by
        refine ih t2 (by simpa using hlen) ?_
        intro i hi
        have := hpt (i + 1) (by simpa using hi)
        simpa using this
      rw [List.countP_cons, List.countP_cons]
      by_cases hx : x = true
      · have hy : y = true := by
          have := hpt 0 (by simp [hx])
          simpa using this
        subst hx
        subst hy
        simpa using Nat.add_le_add htail (Nat.le_refl 1)
      · have hx' : x = false := by simpa using hx
        subst hx'
        simp only [Bool.false_eq_true, if_false]
        exact Nat.le_trans (Nat.le_add_right _ _)
          (Nat.add_le_add htail (Nat.zero_le _))

/-- The element found by `findIdx?` satisfies the predicate. -/
theorem findIdx?_prop {α : Type _} (p : α → Bool) (l : List α) (i : Nat) (a : α)
    (h : l.findIdx? p = some i) (hget : l[i]? = some a) : p a = true := by
  rw [List.findIdx?_eq_some_iff_findIdx_eq] at h
  obtain ⟨hlt, hidx⟩ := h
  have hsome : l[i]? = some l[i] := List.getElem?_eq_some.mpr ⟨hlt, rfl⟩
  rw [hsome] at hget
  injection hget with hget
  subst hget
  subst hidx
  exact List.findIdx_getElem (w := hlt)

/-- Refined case analysis of the removal phase: either no house holds the NPC
and nothing happens, or the first house holding it is found, and it is removed
exactly when that house's id differs from the target id. -/
theorem placeRemovalStep_cases3 (houseId : Nat) (npc : String) (prev : List House) :
    ((∀ h ∈ prev, h.npcPrices.any (fun info => info.npc == npc) = false) ∧
      placeRemovalStep houseId npc prev = prev) ∨
    (∃ idx h,
      prev.findIdx? (fun house => house.npcPrices.any (fun info => info.npc == npc)) = some idx ∧
      prev[idx]? = some h ∧
      h.npcPrices.any (fun info => info.npc == npc) = true ∧
      ((h.id = houseId ∧ placeRemovalStep houseId npc prev = prev) ∨
        (h.id ≠ houseId ∧
          placeRemovalStep houseId npc prev = removeFromIndex npc idx prev))) := by
  cases hidx : prev.findIdx? (fun house => house.npcPrices.any (fun info => info.npc == npc)) with
  | none =>
    left
    refine ⟨List.findIdx?_eq_none_iff.mp hidx, ?_⟩
    simp [placeRemovalStep, hidx]
  | some idx =>
    right
    have hlt : idx < prev.length :=
      (List.findIdx?_eq_some_iff_findIdx_eq.mp hidx).1
    have hget : prev[idx]? = some prev[idx] := List.getElem?_eq_some.mpr ⟨hlt, rfl⟩
    refine ⟨idx, prev[idx], rfl, hget, findIdx?_prop _ prev idx prev[idx] hidx hget, ?_⟩
    by_cases hid : prev[idx].id = houseId
    · left
      refine ⟨hid, ?_⟩
      simp [placeRemovalStep, hidx, List.get?_eq_getElem?, hget, hid]
    · right
      refine ⟨hid, ?_⟩
      simp [placeRemovalStep, hidx, List.get?_eq_getElem?, hget, hid]

/-- The removal map preserves length. -/
theorem removeFromIndex_length (npc : String) (idx : Nat) (l : List House) :
    (removeFromIndex npc idx l).length = l.length := by
  simp [removeFromIndex, List.enum_length]

/-- The removal phase preserves length. -/
theorem placeRemovalStep_length (houseId : Nat) (npc : String) (prev : List House) :
    (placeRemovalStep houseId npc prev).length = prev.length := by
  rcases placeRemovalStep_cases3 houseId npc prev with ⟨-, h⟩ | ⟨idx, h0, -, -, -, hc⟩
  · rw [h]
  · rcases hc with ⟨-, h⟩ | ⟨-, h⟩
    · rw [h]
    · rw [h, removeFromIndex_length]

/-- The append phase preserves length. -/
theorem placeAppendStep_length (houseId : Nat) (npc : String) (l : List House) :
    (placeAppendStep houseId npc l).length = l.length := by
  simp [placeAppendStep]

/-- With a nonempty NPC id and an existing target house, `placeNPC` is the
append phase after the removal phase. -/
theorem placeNPC_eq_steps (houseId : Nat) (npc : String) (prev : List House) (tgt : House)
    (hne : npc ≠ "")
    (hfind : prev.find? (fun house => house.id == houseId) = some tgt) :
    placeNPC houseId npc prev =
      placeAppendStep houseId npc (placeRemovalStep houseId npc prev) := by
  simp [placeNPC, hne, hfind]

/-- C9: under the layout invariants (NPC occupies at most one house, unique
house ids) `placeNPC` is a no-op when the target house is absent or already
holds the NPC; otherwise the NPC ends up in exactly one house — the target,
with the NPC appended — and per-NPC occupancy uniqueness is preserved. -/
theorem c9 (prev : List House) (houseId : Nat) (npc : String)
    (hne : npc ≠ "")
    (huniq : ∀ n, countHousesWith prev n ≤ 1)
    (hids : (prev.map House.id).Nodup) :
    (prev.find? (fun house => house.id == houseId) = none →
      placeNPC houseId npc prev = prev) ∧
    (∀ tgt, prev.find? (fun house => house.id == houseId) = some tgt →
      tgt.npcPrices.any (fun info => info.npc == npc) = true →
      placeNPC houseId npc prev = prev) ∧
    (∀ tgt, prev.find? (fun house => house.id == houseId) = some tgt →
      tgt.npcPrices.any (fun info => info.npc == npc) = false →
      countHousesWith (placeNPC houseId npc prev) npc = 1 ∧
      (∀ h ∈ placeNPC houseId npc prev,
        h.npcPrices.any (fun info => info.npc == npc) = true → h.id = houseId) ∧
      (∀ h ∈ placeNPC houseId npc prev, h.id = houseId →
        h = { tgt with npcPrices := tgt.npcPrices ++ [NpcPriceInfo.mk npc 1 1 []] }) ∧
      (∀ n, countHousesWith (placeNPC houseId npc prev) n ≤ 1)) := by
  have hcntP : ∀ n, prev.countP
      (fun h => h.npcPrices.any (fun info => info.npc == n)) ≤ 1 := by
    intro n
    have := huniq n
    rwa [countHousesWith, ← List.countP_eq_length_filter] at this
  refine ⟨?_, ?_, ?_⟩
  · intro hfind
    simp [placeNPC, hne, hfind]
  · intro tgt hfind hany
    have htgt_mem : tgt ∈ prev := List.mem_of_find?_eq_some hfind
    have htgt_id : tgt.id = houseId := by simpa using List.find?_some hfind
    have hS1 : ∀ h ∈ prev, h.id = houseId → h = tgt := by
      intro h hm hid
      exact List.inj_on_of_nodup_map hids hm htgt_mem (by rw [hid, htgt_id])
    have hrem : placeRemovalStep houseId npc prev = prev := by
      rcases placeRemovalStep_cases3 houseId npc prev with ⟨-, h⟩ |
        ⟨idx, h0, hidx, hget0, hp0, hcase⟩
      · exact h
      · rcases hcase with ⟨-, h⟩ | ⟨hid0, -⟩
        · exact h
        · exfalso
          obtain ⟨j, hj⟩ := List.mem_iff_getElem?.mp htgt_mem
          have hij := countP_le_one_unique _ prev (hcntP npc) idx j h0 tgt hget0 hj hp0 hany
          subst hij
          rw [hget0] at hj
          injection hj with hj
          rw [hj] at hid0
          exact hid0 htgt_id
    have happ : placeAppendStep houseId npc prev = prev := by
      rw [placeAppendStep]
      refine (List.map_congr_left ?_).trans (List.map_id' prev)
      intro a ha
      by_cases haid : a.id = houseId
      · have haeq : a = tgt := hS1 a ha haid
        rw [haeq, hany]
        simp
      · rw [beq_eq_false_iff_ne.mpr haid]
        simp
    rw [placeNPC_eq_steps houseId npc prev tgt hne hfind, hrem, happ]
  · intro tgt hfind hany
    have htgt_mem : tgt ∈ prev := List.mem_of_find?_eq_some hfind
    have htgt_id : tgt.id = houseId := by simpa using List.find?_some hfind
    have hS1 : ∀ h ∈ prev, h.id = houseId → h = tgt := by
      intro h hm hid
      exact List.inj_on_of_nodup_map hids hm htgt_mem (by rw [hid, htgt_id])
    have hres := placeNPC_eq_steps houseId npc prev tgt hne hfind
    -- After the removal phase no house contains the NPC, ids are unchanged,
    -- the house's occupant list is the original or its npc-free filtering,
    -- and the target-id house is fully unchanged.
    have hstep : ∀ (i : Nat) (hi : House), prev[i]? = some hi →
        ∃ ri, (placeRemovalStep houseId npc prev)[i]? = some ri ∧
          ri.id = hi.id ∧
          ri.npcPrices.any (fun info => info.npc == npc) = false ∧
          (hi.id = houseId → ri = hi) ∧
          (ri = hi ∨ ri.npcPrices = hi.npcPrices.filter (fun info => info.npc != npc)) := by
      intro i hi hpi
      rcases placeRemovalStep_cases3 houseId npc prev with ⟨hnone, h⟩ |
        ⟨idx, h0, hidx, hget0, hp0, hcase⟩
      · refine ⟨hi, by rw [h, hpi], rfl, ?_, fun _ => rfl, Or.inl rfl⟩
        exact hnone hi (List.mem_iff_getElem?.mpr ⟨i, hpi⟩)
      · rcases hcase with ⟨hid0, -⟩ | ⟨hid0, h⟩
        · exfalso
          have h0mem : h0 ∈ prev := List.mem_iff_getElem?.mpr ⟨idx, hget0⟩
          have := hS1 h0 h0mem hid0
          rw [this] at hp0
          rw [hp0] at hany
          exact Bool.true_eq_false.mp hany
        · by_cases hiidx : i = idx
          · subst hiidx
            rw [hget0] at hpi
            injection hpi with hpi
            subst hpi
            refine ⟨{ h0 with
                npcPrices := h0.npcPrices.filter (fun info => info.npc != npc) },
              ?_, rfl, ?_, ?_, Or.inr rfl⟩
            · rw [h, removeFromIndex_getElem, hget0]
              simp
            · rw [Bool.eq_false_iff]
              intro hc
              obtain ⟨info, hinfo, hinfoc⟩ := List.any_eq_true.mp hc
              have := (List.mem_filter.mp hinfo).2
              rw [bne_iff_ne] at this
              exact this (by simpa using hinfoc)
            · intro hcontra
              exact absurd hcontra hid0
          · refine ⟨hi, ?_, rfl, ?_, fun _ => rfl, Or.inl rfl⟩
            · rw [h, removeFromIndex_getElem, hpi]
              simp [hiidx]
            · rw [Bool.eq_false_iff]
              intro hc
              exact hiidx (countP_le_one_unique _ prev (hcntP npc) i idx hi h0 hpi hget0 hc hp0)
    -- Pointwise view of the final layout.
    have hfin : ∀ (i : Nat) (hi : House), prev[i]? = some hi →
        ∃ ri h,
          (placeRemovalStep houseId npc prev)[i]? = some ri ∧
          (placeNPC houseId npc prev)[i]? = some h ∧
          ri.id = hi.id ∧
          ri.npcPrices.any (fun info => info.npc == npc) = false ∧
          (hi.id = houseId → ri = hi) ∧
          (ri = hi ∨ ri.npcPrices = hi.npcPrices.filter (fun info => info.npc != npc)) ∧
          h = (if (ri.id == houseId &&
                !(ri.npcPrices.any (fun info => info.npc == npc))) = true then
              { ri with npcPrices := ri.npcPrices ++ [NpcPriceInfo.mk npc 1 1 []] }
            else ri) := by
      intro i hi hpi
      obtain ⟨ri, hri, hid, hcont, htg, hfil⟩ := hstep i hi hpi
      refine ⟨ri, _, hri, ?_, hid, hcont, htg, hfil, rfl⟩
      rw [hres, placeAppendStep, List.getElem?_map, hri]
      rfl
    have hlen : (placeNPC houseId npc prev).length = prev.length := by
      rw [hres, placeAppendStep_length, placeRemovalStep_length]
    -- The boolean occupancy image of the result is the target-id image of the
    -- input.
    have hmapC : (placeNPC houseId npc prev).map
          (fun h => h.npcPrices.any (fun info => info.npc == npc)) =
        prev.map (fun h => h.id == houseId) := by
      apply List.ext_getElem?
      intro i
      rw [List.getElem?_map, List.getElem?_map]
      cases hpi : prev[i]? with
      | none =>
        have hn2 : (placeNPC houseId npc prev)[i]? = none := by
          rw [List.getElem?_eq_none_iff] at hpi ⊢
          rwa [hlen]
        rw [hn2]
        rfl
      | some hi =>
        obtain ⟨ri, h, -, hh, hid, hcont, -, -, hform⟩ := hfin i hi hpi
        rw [hh]
        cases hb : (ri.id == houseId) with
        | true => simp [hform, hcont, hb, List.any_append, ← hid]
        | false => simp [hform, hcont, hb, ← hid]
    -- House ids are unchanged.
    have hmapId : (placeNPC houseId npc prev).map House.id = prev.map House.id := by
      apply List.ext_getElem?
      intro i
      rw [List.getElem?_map, List.getElem?_map]
      cases hpi : prev[i]? with
      | none =>
        have hn2 : (placeNPC houseId npc prev)[i]? = none := by
          rw [List.getElem?_eq_none_iff] at hpi ⊢
          rwa [hlen]
        rw [hn2]
      | some hi =>
        obtain ⟨ri, h, -, hh, hid, -, -, -, hform⟩ := hfin i hi hpi
        rw [hh]
        have hidh : h.id = ri.id := by
          rw [hform]
          split
          · rfl
          · rfl
        simp [hidh, hid]
    -- Exactly one house of the input carries the target id.
    have hcount1 : prev.countP (fun h => h.id == houseId) = 1 := by
      have hmapcnt : List.count houseId (prev.map House.id) =
          prev.countP (fun h => h.id == houseId) := by
        rw [List.count_eq_countP, List.countP_map]
        rfl
      have hle1 : List.count houseId (prev.map House.id) ≤ 1 :=
        List.nodup_iff_count_le_one.mp hids houseId
      have hge1 : 0 < List.count houseId (prev.map House.id) :=
        List.count_pos_iff.mpr (List.mem_map.mpr ⟨tgt, htgt_mem, htgt_id⟩)
      omega
    have hc1 : countHousesWith (placeNPC houseId npc prev) npc = 1 := by
      rw [countHousesWith_eq, hmapC, List.countP_map]
      exact hcount1
    refine ⟨hc1, ?_, ?_, ?_⟩
    · -- any house holding the NPC is the target-id house
      intro h hm hcb
      obtain ⟨i, hiEq⟩ := List.mem_iff_getElem?.mp hm
      cases hpi : prev[i]? with
      | none =>
        exfalso
        rw [List.getElem?_eq_none_iff, ← hlen, ← List.getElem?_eq_none_iff] at hpi
        rw [hpi] at hiEq
        exact Option.noConfusion hiEq
      | some hi =>
        obtain ⟨ri, h2, -, hh, hid, hcont, -, -, hform⟩ := hfin i hi hpi
        rw [hh] at hiEq
        injection hiEq with hiEq
        subst hiEq
        cases hb : (ri.id == houseId) with
        | true =>
          have hhid : h2.id = ri.id := by
            rw [hform]
            split
            · rfl
            · rfl
          rw [hhid]
          exact beq_iff_eq.mp hb
        | false =>
          exfalso
          have hh2 : h2 = ri := by
            rw [hform, hb]
            simp
          rw [hh2, hcont] at hcb
          exact Bool.false_ne_true hcb
    · -- the target-id house is the old target with the NPC appended
      intro h hm hidh
      obtain ⟨i, hiEq⟩ := List.mem_iff_getElem?.mp hm
      cases hpi : prev[i]? with
      | none =>
        exfalso
        rw [List.getElem?_eq_none_iff, ← hlen, ← List.getElem?_eq_none_iff] at hpi
        rw [hpi] at hiEq
        exact Option.noConfusion hiEq
      | some hi =>
        obtain ⟨ri, h2, -, hh, hid, hcont, htg, -, hform⟩ := hfin i hi hpi
        rw [hh] at hiEq
        injection hiEq with hiEq
        subst hiEq
        have hhid : h2.id = ri.id := by
          rw [hform]
          split
          · rfl
          · rfl
        have hri_id : ri.id = houseId := by
          rw [← hhid]
          exact hidh
        have hhi_id : hi.id = houseId := by
          rw [← hid]
          exact hri_id
        have hri_hi : ri = hi := htg hhi_id
        have hhi_tgt : hi = tgt :=
          hS1 hi (List.mem_iff_getElem?.mpr ⟨i, hpi⟩) hhi_id
        have hri_tgt : ri = tgt := hri_hi.trans hhi_tgt
        rw [hform, hri_tgt, beq_iff_eq.mpr htgt_id, hany]
        simp
    · -- occupancy uniqueness is preserved for every NPC
      intro n
      by_cases hn : n = npc
      · rw [hn]
        exact Nat.le_of_eq hc1
      · have hlen2 : ((placeNPC houseId npc prev).map
            (fun h => h.npcPrices.any (fun info => info.npc == n))).length =
            (prev.map (fun h => h.npcPrices.any (fun info => info.npc == n))).length := by
          simp [hlen]
        have hpt : ∀ i : Nat,
            ((placeNPC houseId npc prev).map
              (fun h => h.npcPrices.any (fun info => info.npc == n)))[i]? = some true →
            ((prev.map (fun h => h.npcPrices.any (fun info => info.npc == n))))[i]? =
              some true := by
          intro i hi2
          rw [List.getElem?_map] at hi2 ⊢
          cases hpi : prev[i]? with
          | none =>
            exfalso
            have hn2 : (placeNPC houseId npc prev)[i]? = none := by
              rw [List.getElem?_eq_none_iff] at hpi ⊢
              rwa [hlen]
            rw [hn2] at hi2
            exact Option.noConfusion hi2
          | some hi =>
            obtain ⟨ri, h2, -, hh, -, -, -, hfil, hform⟩ := hfin i hi hpi
            rw [hh] at hi2
            have hch2 : h2.npcPrices.any (fun info => info.npc == n) = true := by
              simpa using hi2
            have hcri : ri.npcPrices.any (fun info => info.npc == n) = true := by
              rw [hform] at hch2
              rcases Bool.eq_false_or_eq_true
                  (ri.id == houseId && !(ri.npcPrices.any (fun info => info.npc == npc))) with
                hc | hc
              · rw [hc] at hch2
                simp at hch2
                rcases hch2 with h3 | h3
                · simpa using h3
                · exact absurd h3 (fun he => hn he.symm)
              · rw [hc] at hch2
                simpa using hch2
            have hchi : hi.npcPrices.any (fun info => info.npc == n) = true := by
              rcases hfil with he | he
              · rwa [he] at hcri
              · rw [he] at hcri
                obtain ⟨info, hinfo, hinfoc⟩ := List.any_eq_true.mp hcri
                exact List.any_eq_true.mpr ⟨info, (List.mem_filter.mp hinfo).1, hinfoc⟩
            simpa using hchi
        have hmono := countP_id_le_of_pointwise _ _ hlen2 hpt
        rw [countHousesWith_eq]
        refine le_trans hmono ?_
        rw [List.countP_map]
        have : prev.countP (fun h => h.npcPrices.any (fun info => info.npc == n)) ≤ 1 :=
          hcntP n
        exact this

/-- C9 witness: moving `a` from house 0 into the empty house 1 leaves it in
exactly one house. -/
theorem c9_witness :
    countHousesWith (placeNPC 1 "a" [houseWithA, houseEmptyB]) "a" = 1 :=
  ((c9 [houseWithA, houseEmptyB] 1 "a" (by decide)
      (fun n => by
        show (List.filter _ _).length ≤ 1
        simp only [houseWithA, houseEmptyB, List.filter_cons, List.filter_nil,
          List.any_cons, List.any_nil, Bool.or_false]
        split <;> simp)
      (by decide)).2.2 houseEmptyB (by decide) (by decide)).1

end TerrariaNPC
